import Mathlib

/-!
A shallow embedding of the aggregation and caching engine of
`pablopunk/github-contributions` (`src/lib.ts`), together with proofs of
the properties its specification states about it.

Pure functions are translated directly.  In-place mutation of arrays,
records and `Map`s in the TypeScript code is rendered as functions that
return the updated value; plain JavaScript objects/`Map`s keyed by
strings become association lists (insertion keeps order, update replaces
in place, exactly like JS string-keyed objects).  The remote GitHub API
is passed in as an explicit oracle argument, and the JS string
primitives used by the code (`split`, `startsWith`, `<`/`>` comparison)
are modelled on the character list of the string.
-/

namespace GHC

/-- Repository record (interface `Repository` in `src/lib.ts`). -/
structure Repository where
  name : String
  fullName : String
  url : String
  stars : Nat
  prCount : Nat
  isOwned : Bool
  isPrivate : Bool
  lastContributedAt : String
  deriving DecidableEq, Repr

/-- Values of `Config.scope` in `src/lib.ts`. -/
inductive Scope
  | own
  | external
  | all
  deriving DecidableEq, Repr

/-- Values of `Config.sortBy` in `src/lib.ts`. -/
inductive SortBy
  | stars
  | contributions
  | all
  | recent
  deriving DecidableEq, Repr

/-- Configuration record (interface `Config` in `src/lib.ts`).  The source
field `include` is called `include'` here because `include` is a Lean
keyword; optional fields (`user?`, `starsLimit?`) become `Option`. -/
structure Config where
  scope : Scope
  sortBy : SortBy
  includePrivate : Bool
  limit : Nat
  include' : List String
  exclude : List String
  user : Option String
  starsLimit : Option Nat
  deriving DecidableEq, Repr

/-- Lookup in a string-keyed JS object / `Map` modelled as an association
list (`obj[k]`, `map.get(k)`). -/
def recordGet {α : Type} (m : List (String × α)) (k : String) : Option α :=
  match m with
  | [] => none
  | (k', v) :: rest => if k' = k then some v else recordGet rest k

/-- Update in a string-keyed JS object / `Map` (`obj[k] = v`,
`map.set(k, v)`): an existing key is overwritten in place, a new key is
appended at the end, as JS insertion order dictates. -/
def recordSet {α : Type} (m : List (String × α)) (k : String) (v : α) :
    List (String × α) :=
  match m with
  | [] => [(k, v)]
  | (k', v') :: rest =>
    if k' = k then (k, v) :: rest else (k', v') :: recordSet rest k v

/-- The predicate of the `repos.filter(...)` callback inside `filterRepos`
in `src/lib.ts` (exclude, include, scope rule, visibility rule). -/
def keepRepo (config : Config) (repo : Repository) : Bool :=
  if repo.fullName ∈ config.exclude then false
  else if repo.fullName ∈ config.include' then true
  else if config.scope = Scope.own ∧ repo.isOwned = false then false
  else if config.scope = Scope.external ∧ repo.isOwned = true then false
  else if config.includePrivate = false ∧ repo.isPrivate = true then false
  else true

/-- Second pass of `filterRepos` in `src/lib.ts`: walk `config.include`
and append, from `allRepos`, every included repository that the first
pass did not keep and that is not excluded.  `filteredSet` is the name
set computed once before the loop; the TypeScript code does not extend
it while pushing, so it is a fixed argument here. -/
def includeExtras (includeNames filteredSet excludeNames : List String)
    (allRepos : List Repository) : List Repository :=
  match includeNames with
  | [] => []
  | n :: rest =>
    if n ∉ filteredSet ∧ n ∉ excludeNames then
      match allRepos.find? (fun r => r.fullName == n) with
      | some repo => repo :: includeExtras rest filteredSet excludeNames allRepos
      | none => includeExtras rest filteredSet excludeNames allRepos
    else includeExtras rest filteredSet excludeNames allRepos

/-- `filterRepos` from `src/lib.ts`. -/
def filterRepos (repos : List Repository) (config : Config)
    (allRepos : List Repository) : List Repository :=
  let filtered := repos.filter (keepRepo config)
  filtered ++
    includeExtras config.include' (filtered.map (·.fullName)) config.exclude allRepos

/-- JS `a < b` on strings: lexicographic comparison of the character
sequences (code-unit order; code points and code units agree on the data
the program handles). -/
def jsLt (a b : String) : Bool :=
  jsLtChars a.data b.data
where
  jsLtChars : List Char → List Char → Bool
    | [], [] => false
    | [], _ :: _ => true
    | _ :: _, [] => false
    | c :: cs, d :: ds =>
      if c < d then true else if d < c then false else jsLtChars cs ds

/-- JS `a.startsWith(p)`. -/
def jsStartsWith (a p : String) : Bool :=
  p.data.isPrefixOf a.data

/-- JS `s.split(sep)` for a one-character separator, on character lists. -/
def splitChar (sep : Char) : List Char → List (List Char)
  | [] => [[]]
  | c :: cs =>
    match splitChar sep cs with
    | [] => [[]]
    | h :: t => if c = sep then [] :: h :: t else (c :: h) :: t

/-- `isValidRepoUrl` from `src/lib.ts`. -/
def isValidRepoUrl (url : String) : Bool :=
  jsStartsWith url "https://api.github.com/repos/"

/-- `parseRepoUrl` from `src/lib.ts`: split on `/` and join the last two
segments with `/`; `null` (here `none`) for an invalid URL. -/
def parseRepoUrl (url : String) : Option String :=
  if isValidRepoUrl url then
    let parts := splitChar '/' url.data
    some (String.mk (parts.getD (parts.length - 2) []) ++ "/" ++
          String.mk (parts.getD (parts.length - 1) []))
  else none

/-- One item of the `/search/issues` response, as read by
`fetchPRsForYear` (`pr.repository_url`, `pr.created_at`). -/
structure PRItem where
  repository_url : String
  created_at : String
  deriving DecidableEq, Repr

/-- The association-list form of the `reposMap : Map<string, Repository>`
accumulator of the aggregation, and of the `repos` record of the durable
cache. -/
abbrev RepoRecord := List (String × Repository)

/-- The body of the `for (const pr of items)` loop in `fetchPRsForYear`
(`src/lib.ts`): parse the repository reference, skip the record if it
does not parse, otherwise bump the existing rollup (incrementing
`prCount` and raising `lastContributedAt` when the new record is more
recent) or insert a fresh rollup with `prCount = 1`. -/
def foldPRItem (username : String) (reposMap : RepoRecord) (pr : PRItem) :
    RepoRecord :=
  match parseRepoUrl pr.repository_url with
  | none => reposMap
  | some fullName =>
    match recordGet reposMap fullName with
    | some existing =>
      recordSet reposMap fullName
        { existing with
          prCount := existing.prCount + 1
          lastContributedAt :=
            if jsLt existing.lastContributedAt pr.created_at then pr.created_at
            else existing.lastContributedAt }
    | none =>
      recordSet reposMap fullName
        { name := String.mk ((splitChar '/' fullName.data).getD 1 [])
          fullName := fullName
          url := "https://github.com/" ++ fullName
          stars := 0
          prCount := 1
          isOwned := jsStartsWith fullName (username ++ "/")
          isPrivate := false
          lastContributedAt := pr.created_at }

/-- Folding a whole sequence of PR records into the rollup map, in order
(the per-item loop iterated over pages and years). -/
def foldPRItems (username : String) (reposMap : RepoRecord)
    (items : List PRItem) : RepoRecord :=
  items.foldl (foldPRItem username) reposMap

/-- The predicate of C5: the repository reference of the record parses to the
given `fullName`. -/
def refersTo (name : String) (pr : PRItem) : Bool :=
  parseRepoUrl pr.repository_url == some name

/-- The larger of two timestamps in the JS string order; this is exactly
the update `if (createdAt > existing.lastContributedAt) ...` performed by
the fold. -/
def jsMax (a b : String) : String :=
  if jsLt a b then b else a

/-- Lexicographic maximum of a list of timestamps (`none` for the empty
list): the first element seeds the fold, later elements replace it when
strictly greater, mirroring how the fold treats the first and the
following records of a repository. -/
def maxTimestamp? : List String → Option String
  | [] => none
  | t :: ts => some (ts.foldl jsMax t)

/-- JS `a <= b` on strings. -/
def jsLe (a b : String) : Bool :=
  !(jsLt b a)

/-- Helper for stating the fold invariant: the maximum of an optional
already-stored timestamp and a list of new timestamps. -/
def mergeMax? (o : Option String) (l : List String) : Option String :=
  match o with
  | some t => some (l.foldl jsMax t)
  | none => maxTimestamp? l

/-- Star count and visibility of one repository as returned by the
metadata endpoint (`stargazers_count`, `private`). -/
structure StarData where
  stars : Nat
  isPrivate : Bool
  deriving DecidableEq, Repr

/-- The remote metadata endpoint as an oracle: `none` models a failing
`ghApi` call for that repository. -/
abbrev MetaOracle := String → Option StarData

/-- `fetchRepoData` from `src/lib.ts`: a failing fetch is caught and
degrades to `stars = 0`, `isPrivate = false`. -/
def fetchRepoData (o : MetaOracle) (fullName : String) : StarData :=
  match o fullName with
  | some d => d
  | none => { stars := 0, isPrivate := false }

/-- The per-repository effect of `fetchStarsForRepos` on an element of
its `repos` argument: a repository with a durable-cache entry gets all
four metadata fields copied from the cache (the `cachedRepos` loop of
the source); the others get `stars` and `isPrivate` from a live
`fetchRepoData` call (the `toFetch` loop).  The two in-place loops of
the source partition the array by cache membership, so their joint
effect on the array is this pointwise update. -/
def enrichRepo (o : MetaOracle) (cacheRepos : RepoRecord) (r : Repository) :
    Repository :=
  match recordGet cacheRepos r.fullName with
  | some cached =>
    { r with
      stars := cached.stars
      isOwned := cached.isOwned
      isPrivate := cached.isPrivate
      lastContributedAt := cached.lastContributedAt }
  | none =>
    let d := fetchRepoData o r.fullName
    { r with stars := d.stars, isPrivate := d.isPrivate }

/-- Result of the enrichment pass: the updated repository list, the
updated durable-cache record, and the fullNames for which a live
metadata fetch was performed, one entry per `fetchRepoData` call. -/
structure EnrichResult where
  repos : List Repository
  cacheRepos : RepoRecord
  fetched : List String
  deriving Repr

/-- `fetchStarsForRepos` from `src/lib.ts`.  `toFetch` is the sublist of
repositories without a durable-cache entry, computed up front; only its
elements produce live calls, and each fetched repository is written back
into the cache (`cache.repos[repo.fullName] = { ...repo }`). -/
def fetchStarsForRepos (o : MetaOracle) (repos : List Repository)
    (cacheRepos : RepoRecord) : EnrichResult :=
  let toFetch := repos.filter (fun r => (recordGet cacheRepos r.fullName).isNone)
  { repos := repos.map (enrichRepo o cacheRepos)
    cacheRepos := toFetch.foldl
      (fun acc r => recordSet acc r.fullName (enrichRepo o cacheRepos r))
      cacheRepos
    fetched := toFetch.map (·.fullName) }

/-- The effective enrichment budget: `config.starsLimit || 20` in
`fetchAndCache` (JS `||`: both `undefined` and `0` fall back to 20). -/
def starsLimitOrDefault (starsLimit : Option Nat) : Nat :=
  match starsLimit with
  | some n => if n = 0 then 20 else n
  | none => 20

/-- The in-place `repos.sort((a, b) => b.prCount - a.prCount)` of
`fetchAndCache`: a stable descending sort by `prCount`.  JS `sort` is
stable, and a stable sort is uniquely determined by its comparator, so
insertion sort with the non-strict comparator reproduces it exactly. -/
def sortByPrCountDesc (repos : List Repository) : List Repository :=
  List.insertionSort (fun a b => b.prCount ≤ a.prCount) repos

/-- The enrichment portion of `fetchAndCache` in `src/lib.ts`: sort by
`prCount` descending, split at the budget into `topRepos` (the hot set)
and `otherRepos`, run `fetchStarsForRepos` on the hot set, then back-fill
`stars`/`isPrivate` of the remainder from the (already updated) cache
record, leaving repositories without a cache entry at their defaults. -/
def enrichPass (o : MetaOracle) (repos : List Repository)
    (cacheRepos : RepoRecord) (starsLimit : Option Nat) : EnrichResult :=
  let sorted := sortByPrCountDesc repos
  let limit := starsLimitOrDefault starsLimit
  let topRepos := sorted.take limit
  let otherRepos := sorted.drop limit
  let res := fetchStarsForRepos o topRepos cacheRepos
  let others := otherRepos.map (fun r =>
    match recordGet res.cacheRepos r.fullName with
    | some cached => { r with stars := cached.stars, isPrivate := cached.isPrivate }
    | none => r)
  { repos := res.repos ++ others
    cacheRepos := res.cacheRepos
    fetched := res.fetched }

/-- Search-page oracle for one year of `fetchPRsForYear`: page number to
items of that page, or a failing fetch (`Except.error` carrying the
thrown message, as produced by `ghApi`). -/
abbrev PageOracle := Nat → Except String (List PRItem)

/-- The `while (true)` pagination loop of `fetchPRsForYear` in
`src/lib.ts`, starting at `page`: fetch the page, propagate a fetch
error, stop on an empty page, fold the items in, stop when the page was
short (fewer than `perPage = 100` items), otherwise continue with the
next page.  The JS loop has no iteration bound; `fuel` bounds the
recursion here and returns the map accumulated so far when exhausted,
and the theorems only concern runs that error or finish within it. -/
def fetchPagesGo (username : String) (fetch : PageOracle) :
    Nat → Nat → RepoRecord → Except String RepoRecord
  | 0, _, m => .ok m
  | fuel + 1, page, m =>
    match fetch page with
    | .error e => .error e
    | .ok items =>
      if items.length = 0 then .ok m
      else
        let m2 := foldPRItems username m items
        if items.length < 100 then .ok m2
        else fetchPagesGo username fetch fuel (page + 1) m2

/-- `fetchPRsForYear` from `src/lib.ts`: the pagination loop started at
page 1 on the oracle of the given year. -/
def fetchPRsForYear (oracle : Nat → PageOracle) (username : String)
    (year fuel : Nat) (m : RepoRecord) : Except String RepoRecord :=
  fetchPagesGo username (oracle year) fuel 1 m

/-- The year loop of `fetchContributedRepos`: process the years in
order, threading the rollup map through; nothing catches a failing year,
so the first error aborts the whole loop. -/
def yearsLoop (oracle : Nat → PageOracle) (username : String) :
    List Nat → Nat → RepoRecord → Except String RepoRecord
  | [], _, m => .ok m
  | y :: ys, fuel, m =>
    match fetchPRsForYear oracle username y fuel m with
    | .error e => .error e
    | .ok m2 => yearsLoop oracle username ys fuel m2

/-- The year sequence `currentYear, currentYear - 1, ..., 2015` iterated
by `fetchContributedRepos` (empty when the current year is before the
fixed start year 2015). -/
def yearsList (currentYear : Nat) : List Nat :=
  if currentYear < 2015 then []
  else (List.range (currentYear - 2015 + 1)).map (fun i => currentYear - i)

/-- `fetchContributedRepos` from `src/lib.ts`: run the year loop from
the empty map and return the rollups (`Array.from(reposMap.values())`);
errors propagate unchanged since nothing catches them. -/
def fetchContributedRepos (oracle : Nat → PageOracle) (username : String)
    (currentYear fuel : Nat) : Except String (List Repository) :=
  match yearsLoop oracle username (yearsList currentYear) fuel [] with
  | .error e => .error e
  | .ok m => .ok (m.map (·.2))

/-- `CACHE_AGE_MS` from `src/lib.ts`: the 60 s freshness window of the
memory cache. -/
def CACHE_AGE_MS : Nat := 60 * 1000

/-- `STALE_WHILE_REVALIDATE_MS` from `src/lib.ts`: the 24 h staleness
window of the memory cache. -/
def STALE_WHILE_REVALIDATE_MS : Nat := 24 * 60 * 60 * 1000

/-- One entry of the module-level `memoryCache` map of `src/lib.ts`. -/
structure MemEntry where
  data : Option (List Repository)
  fetchedAt : Nat
  deriving DecidableEq, Repr

/-- The mutable module-level state read and written by the cache-hit
path of `getRepos`: the `memoryCache` map, the single
`revalidatePromise` slot (`revalidateActive` stands for
`revalidatePromise !== null`; no statement in the source ever assigns
`null` back to it) and `revalidateUser`.  `inflight` additionally keeps
the multiset of background revalidations that have been scheduled and
have not yet settled, so that single-flight properties can be stated. -/
structure SwrState where
  memoryCache : List (String × MemEntry)
  revalidateActive : Bool
  revalidateUser : Option String
  inflight : List String
  deriving DecidableEq, Repr

/-- Observable outcome of one read on the memory-cache path of
`getRepos`: whether the answer came from the memory cache, the local
`isFresh` and `isStale` flags, the reported `cache.isStale` field (the
source computes it as `!isFresh`), and whether a background revalidation
was scheduled by this read. -/
structure ReadOutcome where
  hit : Bool
  isFresh : Bool
  isStale : Bool
  reportedStale : Bool
  scheduled : Bool
  deriving DecidableEq, Repr

/-- The memory-cache decision logic of `getRepos` (`src/lib.ts`): look
up the user, compute `isFresh = age < CACHE_AGE_MS` and
`isStale = age < STALE_WHILE_REVALIDATE_MS`, serve from cache when the
entry has data and `isFresh || isStale`, and schedule a background
`fetchAndCache` exactly when
`isStale && (!revalidatePromise || revalidateUser !== username)`,
setting `revalidateUser` and `revalidatePromise`.  A miss (no entry, no
data, or beyond the staleness window) leaves the revalidation state
untouched and falls through to the synchronous fetch path, which is not
modelled here. -/
def readDecision (st : SwrState) (username : String) (now : Nat) :
    ReadOutcome × SwrState :=
  match recordGet st.memoryCache username with
  | none => (⟨false, false, false, false, false⟩, st)
  | some cached =>
    let isFresh : Bool := decide (now - cached.fetchedAt < CACHE_AGE_MS)
    let isStale : Bool := decide (now - cached.fetchedAt < STALE_WHILE_REVALIDATE_MS)
    if cached.data.isSome && (isFresh || isStale) then
      if isStale && (!st.revalidateActive || st.revalidateUser != some username) then
        (⟨true, isFresh, isStale, !isFresh, true⟩,
          { st with
            revalidateActive := true
            revalidateUser := some username
            inflight := username :: st.inflight })
      else (⟨true, isFresh, isStale, !isFresh, false⟩, st)
    else (⟨false, isFresh, isStale, false, false⟩, st)

/-- Settlement (success or failure) of one background revalidation for
`username`: the promise created by `revalidatePromise = fetchAndCache(...)`
resolves or rejects.  The source attaches no handler to that promise and
never assigns `null` to `revalidatePromise` or `revalidateUser`, so
settlement changes neither; only the outstanding task itself goes away. -/
def settleRevalidation (st : SwrState) (username : String) : SwrState :=
  { st with inflight := st.inflight.erase username }

-- ===== end of definitions =====

theorem keepRepo_of_include {config : Config} {repo : Repository}
    (hin : repo.fullName ∈ config.include')
    (hex : repo.fullName ∉ config.exclude) : keepRepo config repo = true := by
  unfold keepRepo
  rw [if_neg hex, if_pos hin]

theorem mem_includeExtras {inc fset exc : List String}
    {allRepos : List Repository} {r : Repository}
    (h : r ∈ includeExtras inc fset exc allRepos) :
    r.fullName ∈ inc ∧ r.fullName ∉ exc ∧ r ∈ allRepos := by
  induction inc with
  | nil => simp [includeExtras] at h
  | cons n rest ih =>
    rw [includeExtras] at h
    by_cases hg : n ∉ fset ∧ n ∉ exc
    · rw [if_pos hg] at h
      cases hfind : allRepos.find? (fun r => r.fullName == n) with
      | none =>
        rw [hfind] at h
        rcases ih h with ⟨h1, h2, h3⟩
        exact ⟨List.mem_cons_of_mem _ h1, h2, h3⟩
      | some repo =>
        rw [hfind] at h
        rcases List.mem_cons.mp h with hhead | htail
        · have hname : repo.fullName = n := by
            have := List.find?_some hfind
            simpa using this
          subst hhead
          exact ⟨by rw [hname]; exact List.mem_cons_self _ _,
                 by rw [hname]; exact hg.2,
                 List.mem_of_find?_eq_some hfind⟩
        · rcases ih htail with ⟨h1, h2, h3⟩
          exact ⟨List.mem_cons_of_mem _ h1, h2, h3⟩
    · rw [if_neg hg] at h
      rcases ih h with ⟨h1, h2, h3⟩
      exact ⟨List.mem_cons_of_mem _ h1, h2, h3⟩

theorem includeExtras_mem_of_exists {inc fset exc : List String}
    {allRepos : List Repository} {n : String}
    (hin : n ∈ inc) (hf : n ∉ fset) (he : n ∉ exc)
    (hex : ∃ r ∈ allRepos, r.fullName = n) :
    ∃ r ∈ includeExtras inc fset exc allRepos, r.fullName = n := by
  induction inc with
  | nil => simp at hin
  | cons m rest ih =>
    rw [includeExtras]
    rcases List.mem_cons.mp hin with hhead | htail
    · subst hhead
      rw [if_pos ⟨hf, he⟩]
      cases hfind : allRepos.find? (fun r => r.fullName == n) with
      | none =>
        exfalso
        rcases hex with ⟨r, hr, hrn⟩
        have := List.find?_eq_none.mp hfind r hr
        simp [hrn] at this
      | some repo =>
        refine ⟨repo, List.mem_cons_self _ _, ?_⟩
        have := List.find?_some hfind
        simpa using this
    · by_cases hg : m ∉ fset ∧ m ∉ exc
      · rw [if_pos hg]
        cases hfind : allRepos.find? (fun r => r.fullName == m) with
        | none => exact ih htail
        | some repo =>
          rcases ih htail with ⟨r, hr, hrn⟩
          exact ⟨r, List.mem_cons_of_mem _ hr, hrn⟩
      · rw [if_neg hg]
        exact ih htail

theorem includeExtras_eq_nil {inc fset exc : List String}
    {allRepos : List Repository}
    (h : ∀ n ∈ inc, n ∉ fset → n ∉ exc →
      allRepos.find? (fun r => r.fullName == n) = none) :
    includeExtras inc fset exc allRepos = [] := by
  induction inc with
  | nil => rfl
  | cons n rest ih =>
    rw [includeExtras]
    have hrest : includeExtras rest fset exc allRepos = [] :=
      ih fun m hm => h m (List.mem_cons_of_mem _ hm)
    by_cases hg : n ∉ fset ∧ n ∉ exc
    · rw [if_pos hg, h n (List.mem_cons_self _ _) hg.1 hg.2]
      exact hrest
    · rw [if_neg hg]
      exact hrest

/-- C7: a repository whose `fullName` is in the exclude set never appears
in the output of `filterRepos`, even when it is also in the include set;
a repository in the include set and not the exclude set always appears
in the output whenever it exists among the filtered repositories or the
full unfiltered set, regardless of scope and visibility rules. -/
theorem filterRepos_exclude_dominates_include
    (repos : List Repository) (config : Config)
    (allRepos : List Repository) (name : String) :
    (name ∈ config.exclude →
      ∀ r ∈ filterRepos repos config allRepos, r.fullName ≠ name) ∧
    (name ∈ config.include' → name ∉ config.exclude →
      ((∃ r ∈ repos, r.fullName = name) ∨ (∃ r ∈ allRepos, r.fullName = name)) →
      ∃ r ∈ filterRepos repos config allRepos, r.fullName = name) := by
  constructor
  · intro hexc r hr hname
    rcases List.mem_append.mp hr with hfil | hext
    · have hkeep := List.of_mem_filter hfil
      rw [keepRepo] at hkeep
      rw [if_pos (hname ▸ hexc)] at hkeep
      exact absurd hkeep (by simp)
    · exact absurd (hname ▸ (mem_includeExtras hext).2.1) (by simp [hexc])
  · intro hinc hnexc hsrc
    by_cases hfs : name ∈ (repos.filter (keepRepo config)).map (·.fullName)
    · rcases List.mem_map.mp hfs with ⟨r, hr, hrn⟩
      exact ⟨r, List.mem_append_left _ hr, hrn⟩
    · have hall : ∃ r ∈ allRepos, r.fullName = name := by
        rcases hsrc with ⟨r, hr, hrn⟩ | hall
        · exfalso
          apply hfs
          refine List.mem_map.mpr ⟨r, ?_, hrn⟩
          exact List.mem_filter.mpr ⟨hr, keepRepo_of_include (hrn ▸ hinc) (hrn ▸ hnexc)⟩
        · exact hall
      rcases includeExtras_mem_of_exists hinc hfs hnexc hall with ⟨r, hr, hrn⟩
      exact ⟨r, List.mem_append_right _ hr, hrn⟩

theorem keepRepo_of_mem_filterRepos {repos : List Repository} {config : Config}
    {allRepos : List Repository} {r : Repository}
    (h : r ∈ filterRepos repos config allRepos) : keepRepo config r = true := by
  rcases List.mem_append.mp h with hfil | hext
  · exact List.of_mem_filter hfil
  · rcases mem_includeExtras hext with ⟨h1, h2, _⟩
    exact keepRepo_of_include h1 h2

/-- C8: filtering is idempotent.  Applying `filterRepos` to its own
output, with that output also serving as the full unfiltered set, gives
back the output unchanged (even as a list, hence certainly as a set). -/
theorem filterRepos_idempotent (repos : List Repository) (config : Config)
    (allRepos : List Repository) :
    filterRepos (filterRepos repos config allRepos) config
        (filterRepos repos config allRepos)
      = filterRepos repos config allRepos := by
  set out := filterRepos repos config allRepos with hout
  have hkeep : ∀ r ∈ out, keepRepo config r = true :=
    fun r hr => keepRepo_of_mem_filterRepos (hout ▸ hr)
  have hfil : out.filter (keepRepo config) = out := List.filter_eq_self.mpr hkeep
  have hext : includeExtras config.include' ((out.filter (keepRepo config)).map (·.fullName))
      config.exclude out = [] := by
    apply includeExtras_eq_nil
    intro n _ hnf _
    apply List.find?_eq_none.mpr
    intro x hx
    simp only [beq_iff_eq]
    intro hxn
    exact hnf (by rw [hfil]; exact List.mem_map.mpr ⟨x, hx, hxn⟩)
  show out.filter (keepRepo config) ++ _ = out
  rw [hext, hfil, List.append_nil]

theorem recordGet_recordSet_self {α : Type} (m : List (String × α))
    (k : String) (v : α) : recordGet (recordSet m k v) k = some v := by
  induction m with
  | nil => simp [recordSet, recordGet]
  | cons p rest ih =>
    rw [recordSet]
    by_cases h : p.1 = k
    · rw [if_pos h, recordGet, if_pos rfl]
    · rw [if_neg h, recordGet, if_neg h]
      exact ih

theorem recordGet_recordSet_ne {α : Type} (m : List (String × α))
    (k n : String) (v : α) (hne : k ≠ n) :
    recordGet (recordSet m k v) n = recordGet m n := by
  induction m with
  | nil => simp [recordSet, recordGet, hne]
  | cons p rest ih =>
    rw [recordSet]
    by_cases h : p.1 = k
    · rw [if_pos h, recordGet, if_neg hne, recordGet, if_neg (h ▸ hne)]
    · rw [if_neg h, recordGet, recordGet]
      by_cases h2 : p.1 = n
      · rw [if_pos h2, if_pos h2]
      · rw [if_neg h2, if_neg h2]
        exact ih

theorem foldPRItem_count (username : String) (m : RepoRecord) (pr : PRItem)
    (name : String) :
    ((recordGet (foldPRItem username m pr) name).map Repository.prCount).getD 0
      = ((recordGet m name).map Repository.prCount).getD 0
        + (if refersTo name pr then 1 else 0) := by
  rw [foldPRItem, refersTo]
  cases hp : parseRepoUrl pr.repository_url with
  | none => simp
  | some fullName =>
    by_cases hn : fullName = name
    · subst hn
      simp only [beq_iff_eq, Option.some.injEq, if_pos rfl]
      cases hg : recordGet m fullName with
      | some existing => rw [recordGet_recordSet_self]; simp
      | none => rw [recordGet_recordSet_self]; simp
    · have hne : (some fullName == some name) = false := by
        simp [hn]
      simp only [hne, Bool.false_eq_true, if_false, Nat.add_zero]
      cases hg : recordGet m fullName with
      | some existing => rw [recordGet_recordSet_ne m fullName name _ hn]
      | none => rw [recordGet_recordSet_ne m fullName name _ hn]

theorem foldPRItems_count (username : String) (items : List PRItem)
    (m : RepoRecord) (name : String) :
    ((recordGet (foldPRItems username m items) name).map Repository.prCount).getD 0
      = ((recordGet m name).map Repository.prCount).getD 0
        + items.countP (refersTo name) := by
  induction items generalizing m with
  | nil => simp [foldPRItems]
  | cons pr rest ih =>
    rw [foldPRItems, List.foldl_cons]
    rw [show List.foldl (foldPRItem username) (foldPRItem username m pr) rest
        = foldPRItems username (foldPRItem username m pr) rest from rfl]
    rw [ih, foldPRItem_count, List.countP_cons]
    omega

/-- C5: starting from the empty rollup map, after folding any sequence of
PR records the `prCount` stored for any repository name equals the number
of records whose repository reference parses to that name (and is `0`,
i.e. the name is absent, when no record refers to it); a record whose
reference does not parse leaves the rollup map untouched. -/
theorem pullRequestCount_eq_parseable_records :
    (∀ (username : String) (items : List PRItem) (name : String),
      ((recordGet (foldPRItems username [] items) name).map Repository.prCount).getD 0
        = items.countP (refersTo name)) ∧
    (∀ (username : String) (m : RepoRecord) (pr : PRItem),
      parseRepoUrl pr.repository_url = none → foldPRItem username m pr = m) := by
  constructor
  · intro username items name
    rw [foldPRItems_count]
    simp [recordGet]
  · intro username m pr hp
    rw [foldPRItem, hp]

/-- Closed witness for C5: a concrete run with two parseable references
to `alice/x`, one to `bob/y` and one malformed reference. -/
theorem pullRequestCount_eq_parseable_records_witness :
    ((recordGet (foldPRItems "alice" []
        [⟨"https://api.github.com/repos/alice/x", "2024-01-01T00:00:00Z"⟩,
         ⟨"not-a-repo-url", "2024-02-01T00:00:00Z"⟩,
         ⟨"https://api.github.com/repos/bob/y", "2024-03-01T00:00:00Z"⟩,
         ⟨"https://api.github.com/repos/alice/x", "2024-04-01T00:00:00Z"⟩])
      "alice/x").map Repository.prCount).getD 0 = 2 ∧
    foldPRItem "alice" [] ⟨"not-a-repo-url", "2024-02-01T00:00:00Z"⟩ = [] := by
  constructor
  · rw [pullRequestCount_eq_parseable_records.1 "alice" _ "alice/x"]
    decide
  · exact pullRequestCount_eq_parseable_records.2 "alice" []
      ⟨"not-a-repo-url", "2024-02-01T00:00:00Z"⟩ (by decide)

theorem jsLtChars_irrefl (l : List Char) : jsLt.jsLtChars l l = false := by
  induction l with
  | nil => rfl
  | cons c cs ih => simp [jsLt.jsLtChars, lt_irrefl, ih]

theorem jsLt_irrefl (a : String) : jsLt a a = false :=
  jsLtChars_irrefl a.data

theorem jsLtChars_asymm (l1 l2 : List Char)
    (h : jsLt.jsLtChars l1 l2 = true) : jsLt.jsLtChars l2 l1 = false := by
  induction l1 generalizing l2 with
  | nil =>
    cases l2 with
    | nil => simp [jsLt.jsLtChars]
    | cons d ds => rfl
  | cons c cs ih =>
    cases l2 with
    | nil => simp [jsLt.jsLtChars] at h
    | cons d ds =>
      rw [jsLt.jsLtChars] at h ⊢
      by_cases hcd : c < d
      · rw [if_neg (asymm hcd), if_pos hcd]
      · rw [if_neg hcd] at h
        by_cases hdc : d < c
        · rw [if_pos hdc] at h
          exact absurd h (by simp)
        · rw [if_neg hdc] at h
          rw [if_neg hdc, if_neg hcd]
          exact ih ds h

theorem jsLt_asymm {a b : String} (h : jsLt a b = true) : jsLt b a = false :=
  jsLtChars_asymm a.data b.data h

theorem jsLe_refl (a : String) : jsLe a a = true := by
  rw [jsLe, jsLt_irrefl]; rfl

theorem jsLe_jsMax_left (a b : String) : jsLe a (jsMax a b) = true := by
  rw [jsMax]
  by_cases h : jsLt a b
  · rw [if_pos h, jsLe, jsLt_asymm h]; rfl
  · rw [if_neg h]
    exact jsLe_refl a

theorem mergeMax?_nil (o : Option String) : mergeMax? o [] = o := by
  cases o <;> rfl

theorem foldPRItem_step_existing {m : RepoRecord} {pr : PRItem}
    {fullName : String} {existing : Repository} (username : String)
    (hp : parseRepoUrl pr.repository_url = some fullName)
    (hg : recordGet m fullName = some existing) :
    foldPRItem username m pr
      = recordSet m fullName
          { existing with
            prCount := existing.prCount + 1
            lastContributedAt :=
              if jsLt existing.lastContributedAt pr.created_at then pr.created_at
              else existing.lastContributedAt } := by
  simp only [foldPRItem, hp, hg]

theorem foldPRItem_step_new {m : RepoRecord} {pr : PRItem}
    {fullName : String} (username : String)
    (hp : parseRepoUrl pr.repository_url = some fullName)
    (hg : recordGet m fullName = none) :
    foldPRItem username m pr
      = recordSet m fullName
          { name := String.mk ((splitChar '/' fullName.data).getD 1 [])
            fullName := fullName
            url := "https://github.com/" ++ fullName
            stars := 0
            prCount := 1
            isOwned := jsStartsWith fullName (username ++ "/")
            isPrivate := false
            lastContributedAt := pr.created_at } := by
  simp only [foldPRItem, hp, hg]

theorem foldPRItem_step_skip {pr : PRItem} (username : String) (m : RepoRecord)
    (hp : parseRepoUrl pr.repository_url = none) :
    foldPRItem username m pr = m := by
  simp only [foldPRItem, hp]

theorem foldPRItem_get_of_not_refersTo (username : String) (m : RepoRecord)
    (pr : PRItem) (name : String) (h : refersTo name pr = false) :
    recordGet (foldPRItem username m pr) name = recordGet m name := by
  rw [refersTo] at h
  cases hp : parseRepoUrl pr.repository_url with
  | none => rw [foldPRItem_step_skip username m hp]
  | some fullName =>
    have hne : fullName ≠ name := by
      intro heq
      rw [hp, heq] at h
      simp at h
    cases hg : recordGet m fullName with
    | some existing =>
      rw [foldPRItem_step_existing username hp hg]
      exact recordGet_recordSet_ne m fullName name _ hne
    | none =>
      rw [foldPRItem_step_new username hp hg]
      exact recordGet_recordSet_ne m fullName name _ hne

theorem foldPRItems_last (username : String) (items : List PRItem)
    (m : RepoRecord) (name : String) :
    (recordGet (foldPRItems username m items) name).map Repository.lastContributedAt
      = mergeMax? ((recordGet m name).map Repository.lastContributedAt)
          ((items.filter (refersTo name)).map PRItem.created_at) := by
  induction items generalizing m with
  | nil => simp [foldPRItems, mergeMax?_nil]
  | cons pr rest ih =>
    rw [foldPRItems, List.foldl_cons]
    rw [show List.foldl (foldPRItem username) (foldPRItem username m pr) rest
        = foldPRItems username (foldPRItem username m pr) rest from rfl]
    rw [ih, List.filter_cons]
    cases hb : refersTo name pr with
    | true =>
      rw [if_pos rfl, List.map_cons]
      have hp : parseRepoUrl pr.repository_url = some name := by
        rw [refersTo] at hb
        exact beq_iff_eq.mp hb
      cases hg : recordGet m name with
      | some existing =>
        rw [foldPRItem_step_existing username hp hg, recordGet_recordSet_self]
        simp only [Option.map_some', mergeMax?, List.foldl_cons]
        rfl
      | none =>
        rw [foldPRItem_step_new username hp hg, recordGet_recordSet_self]
        simp only [Option.map_some', Option.map_none', mergeMax?, maxTimestamp?]
    | false =>
      rw [if_neg (by simp [hb]), foldPRItem_get_of_not_refersTo username m pr name hb]

/-- C6: starting from the empty rollup map, whenever a repository is
present after folding a sequence of PR records, its
`lastContributedAt` is the lexicographic maximum of the creation
timestamps of the records that refer to it; moreover folding one more
record never decreases the stored `lastContributedAt`. -/
theorem lastContribution_is_lex_max :
    (∀ (username : String) (items : List PRItem) (name : String) (r : Repository),
      recordGet (foldPRItems username [] items) name = some r →
      maxTimestamp? ((items.filter (refersTo name)).map PRItem.created_at)
        = some r.lastContributedAt) ∧
    (∀ (username : String) (m : RepoRecord) (pr : PRItem) (name : String)
      (r r' : Repository),
      recordGet m name = some r →
      recordGet (foldPRItem username m pr) name = some r' →
      jsLe r.lastContributedAt r'.lastContributedAt = true) := by
  constructor
  · intro username items name r hr
    have h := foldPRItems_last username items [] name
    rw [hr] at h
    simp only [recordGet, Option.map_some', Option.map_none'] at h
    have h2 : mergeMax? none ((items.filter (refersTo name)).map PRItem.created_at)
        = some r.lastContributedAt := h.symm
    rw [mergeMax?] at h2
    exact h2
  · intro username m pr name r r' hr hr'
    cases hb : refersTo name pr with
    | true =>
      have hp : parseRepoUrl pr.repository_url = some name := by
        rw [refersTo] at hb
        exact beq_iff_eq.mp hb
      rw [foldPRItem_step_existing username hp hr, recordGet_recordSet_self] at hr'
      injection hr' with h
      subst h
      exact jsLe_jsMax_left _ _
    | false =>
      rw [foldPRItem_get_of_not_refersTo username m pr name hb, hr] at hr'
      injection hr' with h
      subst h
      exact jsLe_refl _

/-- Closed witness for C6: two records for `alice/x`; the stored
timestamp is their maximum, and one further fold step is monotone. -/
theorem lastContribution_is_lex_max_witness :
    maxTimestamp?
      ((([⟨"https://api.github.com/repos/alice/x", "2024-01-01T00:00:00Z"⟩,
          ⟨"https://api.github.com/repos/alice/x", "2024-04-01T00:00:00Z"⟩]
          : List PRItem).filter (refersTo "alice/x")).map PRItem.created_at)
      = some "2024-04-01T00:00:00Z" ∧
    jsLe "2024-01-01T00:00:00Z" "2024-04-01T00:00:00Z" = true := by
  constructor
  · exact lastContribution_is_lex_max.1 "alice"
      [⟨"https://api.github.com/repos/alice/x", "2024-01-01T00:00:00Z"⟩,
       ⟨"https://api.github.com/repos/alice/x", "2024-04-01T00:00:00Z"⟩]
      "alice/x"
      ⟨"x", "alice/x", "https://github.com/alice/x", 0, 2, true, false,
        "2024-04-01T00:00:00Z"⟩
      (by decide)
  · exact lastContribution_is_lex_max.2 "alice"
      [("alice/x",
        ⟨"x", "alice/x", "https://github.com/alice/x", 0, 1, true, false,
          "2024-01-01T00:00:00Z"⟩)]
      ⟨"https://api.github.com/repos/alice/x", "2024-04-01T00:00:00Z"⟩
      "alice/x"
      ⟨"x", "alice/x", "https://github.com/alice/x", 0, 1, true, false,
        "2024-01-01T00:00:00Z"⟩
      ⟨"x", "alice/x", "https://github.com/alice/x", 0, 2, true, false,
        "2024-04-01T00:00:00Z"⟩
      (by decide) (by decide)

theorem enrichRepo_cached {o : MetaOracle} {cacheRepos : RepoRecord}
    {r cached : Repository} (h : recordGet cacheRepos r.fullName = some cached) :
    enrichRepo o cacheRepos r
      = { r with
          stars := cached.stars
          isOwned := cached.isOwned
          isPrivate := cached.isPrivate
          lastContributedAt := cached.lastContributedAt } := by
  simp only [enrichRepo, h]

theorem enrichRepo_uncached {o : MetaOracle} {cacheRepos : RepoRecord}
    {r : Repository} (h : recordGet cacheRepos r.fullName = none) :
    enrichRepo o cacheRepos r
      = { r with
          stars := (fetchRepoData o r.fullName).stars
          isPrivate := (fetchRepoData o r.fullName).isPrivate } := by
  simp only [enrichRepo, h]

theorem fetched_eq (o : MetaOracle) (repos : List Repository)
    (cacheRepos : RepoRecord) :
    (fetchStarsForRepos o repos cacheRepos).fetched
      = (repos.filter (fun r => (recordGet cacheRepos r.fullName).isNone)).map
          (·.fullName) := rfl

theorem not_mem_fetched_of_cached {o : MetaOracle} {repos : List Repository}
    {cacheRepos : RepoRecord} {r cached : Repository}
    (h : recordGet cacheRepos r.fullName = some cached) :
    r.fullName ∉ (fetchStarsForRepos o repos cacheRepos).fetched := by
  rw [fetched_eq]
  intro hmem
  rcases List.mem_map.mp hmem with ⟨r', hr', hname⟩
  have hpred := List.of_mem_filter hr'
  rw [hname, h] at hpred
  simp at hpred

theorem mem_fetched_of_uncached {o : MetaOracle} {repos : List Repository}
    {cacheRepos : RepoRecord} {r : Repository} (hmem : r ∈ repos)
    (h : recordGet cacheRepos r.fullName = none) :
    r.fullName ∈ (fetchStarsForRepos o repos cacheRepos).fetched := by
  rw [fetched_eq]
  refine List.mem_map.mpr ⟨r, ?_, rfl⟩
  exact List.mem_filter.mpr ⟨hmem, by rw [h]; rfl⟩

/-- C1 (amended): the enrichment pass live-fetches a repository exactly
when it has no durable-cache entry.  A cached repository is skipped
(never in the fetched list) and its metadata is copied from the cache;
an uncached repository is live-fetched, and a failing fetch degrades to
the defaults (0 stars, not private), not to any cached value.  The
updated repository list is the pointwise `enrichRepo` update. -/
theorem hotset_cache_hit_skips_live_fetch :
    (∀ (o : MetaOracle) (repos : List Repository) (cacheRepos : RepoRecord),
      (fetchStarsForRepos o repos cacheRepos).repos
        = repos.map (enrichRepo o cacheRepos)) ∧
    (∀ (o : MetaOracle) (repos : List Repository) (cacheRepos : RepoRecord)
      (r : Repository), r ∈ repos →
      (∀ cached, recordGet cacheRepos r.fullName = some cached →
        r.fullName ∉ (fetchStarsForRepos o repos cacheRepos).fetched ∧
        enrichRepo o cacheRepos r
          = { r with
              stars := cached.stars
              isOwned := cached.isOwned
              isPrivate := cached.isPrivate
              lastContributedAt := cached.lastContributedAt }) ∧
      (recordGet cacheRepos r.fullName = none →
        r.fullName ∈ (fetchStarsForRepos o repos cacheRepos).fetched ∧
        (o r.fullName = none →
          enrichRepo o cacheRepos r = { r with stars := 0, isPrivate := false }))) := by
  refine ⟨fun o repos cacheRepos => rfl, fun o repos cacheRepos r hmem => ⟨?_, ?_⟩⟩
  · intro cached hc
    exact ⟨not_mem_fetched_of_cached hc, enrichRepo_cached hc⟩
  · intro hc
    refine ⟨mem_fetched_of_uncached hmem hc, fun ho => ?_⟩
    rw [enrichRepo_uncached hc, fetchRepoData, ho]

/-- Closed witness for the amended C1: one cached and one uncached
repository; the cached one is skipped and keeps the cached star count,
the uncached one is fetched, and with a failing oracle it falls back to
zero stars. -/
theorem hotset_cache_hit_skips_live_fetch_witness :
    ("a/x" : String)
        ∉ (fetchStarsForRepos (fun _ => none)
            [⟨"x", "a/x", "", 0, 5, false, false, "2024"⟩]
            [("a/x", ⟨"x", "a/x", "", 3, 2, true, false, "2023"⟩)]).fetched ∧
    ("b/y" : String)
        ∈ (fetchStarsForRepos (fun _ => none)
            [⟨"y", "b/y", "", 0, 5, false, false, "2024"⟩] []).fetched ∧
    enrichRepo (fun _ => none) [] ⟨"y", "b/y", "", 9, 5, false, true, "2024"⟩
      = ⟨"y", "b/y", "", 0, 5, false, false, "2024"⟩ := by
  refine ⟨?_, ?_, ?_⟩
  · exact ((hotset_cache_hit_skips_live_fetch.2 (fun _ => none)
      [⟨"x", "a/x", "", 0, 5, false, false, "2024"⟩]
      [("a/x", ⟨"x", "a/x", "", 3, 2, true, false, "2023"⟩)]
      ⟨"x", "a/x", "", 0, 5, false, false, "2024"⟩
      (by decide)).1 ⟨"x", "a/x", "", 3, 2, true, false, "2023"⟩ (by decide)).1
  · exact ((hotset_cache_hit_skips_live_fetch.2 (fun _ => none)
      [⟨"y", "b/y", "", 0, 5, false, false, "2024"⟩] []
      ⟨"y", "b/y", "", 0, 5, false, false, "2024"⟩
      (by decide)).2 (by decide)).1
  · exact ((hotset_cache_hit_skips_live_fetch.2 (fun _ => none)
      [⟨"y", "b/y", "", 9, 5, false, true, "2024"⟩] []
      ⟨"y", "b/y", "", 9, 5, false, true, "2024"⟩
      (by decide)).2 (by decide)).2 rfl

/-- Counterexample to C1 as stated: a hot-set repository whose fullName
has a durable-cache entry is NOT live-fetched (the fetched list is
empty) even though the oracle would answer (7 stars); its star count is
taken from the cache (3), so the cached value is primary, not a fallback
for a failed live fetch. -/
theorem hotset_always_refetched_counterexample :
    (⟨"x", "a/x", "", 0, 5, false, false, "2024"⟩ : Repository)
        ∈ (sortByPrCountDesc [⟨"x", "a/x", "", 0, 5, false, false, "2024"⟩]).take
            (starsLimitOrDefault (some 20)) ∧
    recordGet [("a/x", (⟨"x", "a/x", "", 3, 2, true, false, "2023"⟩ : Repository))]
        "a/x" = some ⟨"x", "a/x", "", 3, 2, true, false, "2023"⟩ ∧
    (enrichPass (fun _ => some ⟨7, false⟩)
        [⟨"x", "a/x", "", 0, 5, false, false, "2024"⟩]
        [("a/x", ⟨"x", "a/x", "", 3, 2, true, false, "2023"⟩)]
        (some 20)).fetched = [] ∧
    (enrichPass (fun _ => some ⟨7, false⟩)
        [⟨"x", "a/x", "", 0, 5, false, false, "2024"⟩]
        [("a/x", ⟨"x", "a/x", "", 3, 2, true, false, "2023"⟩)]
        (some 20)).repos.map Repository.stars = [3] := by
  refine ⟨?_, ?_, ?_, ?_⟩ <;> decide

/-- C10: a hot-set repository with a durable-cache entry has not only its
`stars` and `isPrivate` but also its `isOwned` and `lastContributedAt`
overwritten with the older cached values in the enriched output. -/
theorem hotset_cache_hit_overwrites_all_fields
    (o : MetaOracle) (repos : List Repository) (cacheRepos : RepoRecord)
    (starsLimit : Option Nat) (r cached : Repository)
    (hhot : r ∈ (sortByPrCountDesc repos).take (starsLimitOrDefault starsLimit))
    (hc : recordGet cacheRepos r.fullName = some cached) :
    { r with
      stars := cached.stars
      isOwned := cached.isOwned
      isPrivate := cached.isPrivate
      lastContributedAt := cached.lastContributedAt }
      ∈ (enrichPass o repos cacheRepos starsLimit).repos := by
  have hmem : enrichRepo o cacheRepos r
      ∈ ((sortByPrCountDesc repos).take (starsLimitOrDefault starsLimit)).map
          (enrichRepo o cacheRepos) :=
    List.mem_map_of_mem _ hhot
  rw [enrichRepo_cached hc] at hmem
  exact List.mem_append_left _ hmem

/-- Closed witness for C10: the hot-set repository `a/x` with a cache
entry appears in the output with all four metadata fields (stars,
owned, private, last contribution) taken from the cache entry. -/
theorem hotset_cache_hit_overwrites_all_fields_witness :
    (⟨"x", "a/x", "", 3, 5, true, true, "2023"⟩ : Repository)
      ∈ (enrichPass (fun _ => some ⟨7, false⟩)
          [⟨"x", "a/x", "", 0, 5, false, false, "2024"⟩]
          [("a/x", ⟨"x", "a/x", "", 3, 2, true, true, "2023"⟩)]
          (some 20)).repos :=
  hotset_cache_hit_overwrites_all_fields (fun _ => some ⟨7, false⟩)
    [⟨"x", "a/x", "", 0, 5, false, false, "2024"⟩]
    [("a/x", ⟨"x", "a/x", "", 3, 2, true, true, "2023"⟩)]
    (some 20)
    ⟨"x", "a/x", "", 0, 5, false, false, "2024"⟩
    ⟨"x", "a/x", "", 3, 2, true, true, "2023"⟩
    (by decide) (by decide)

theorem fetched_length_of_empty_cache (o : MetaOracle)
    (repos : List Repository) :
    (fetchStarsForRepos o repos []).fetched.length = repos.length := by
  rw [fetched_eq, List.length_map]
  have hf : repos.filter (fun r => (recordGet ([] : RepoRecord) r.fullName).isNone)
      = repos :=
    List.filter_eq_self.mpr fun a _ => rfl
  rw [hf]

theorem enrichPass_fetched (o : MetaOracle) (repos : List Repository)
    (cacheRepos : RepoRecord) (starsLimit : Option Nat) :
    (enrichPass o repos cacheRepos starsLimit).fetched
      = (fetchStarsForRepos o
          ((sortByPrCountDesc repos).take (starsLimitOrDefault starsLimit))
          cacheRepos).fetched := rfl

/-- C4: the enrichment pass performs at most `budget` live metadata
fetches (where `budget` is the enrichment budget in force,
`starsLimit || 20`) regardless of the rollup count; every live-fetched
name belongs to the hot set (the first `budget` entries of the rollups
sorted by `prCount` descending), so entries beyond the hot set are never
live-fetched; and on 500 rollups with budget 20 and an empty durable
cache it performs exactly 20 live calls. -/
theorem enrichment_budget_bound :
    (∀ (o : MetaOracle) (repos : List Repository) (cacheRepos : RepoRecord)
      (starsLimit : Option Nat),
      (enrichPass o repos cacheRepos starsLimit).fetched.length
        ≤ starsLimitOrDefault starsLimit) ∧
    (∀ (o : MetaOracle) (repos : List Repository) (cacheRepos : RepoRecord)
      (starsLimit : Option Nat),
      ∀ n ∈ (enrichPass o repos cacheRepos starsLimit).fetched,
        n ∈ ((sortByPrCountDesc repos).take (starsLimitOrDefault starsLimit)).map
              (·.fullName)) ∧
    ((enrichPass (fun _ => none)
        (List.replicate 500 ⟨"x", "a/x", "", 0, 1, false, false, "2024"⟩)
        [] (some 20)).fetched.length = 20) := by
  refine ⟨?_, ?_, ?_⟩
  · intro o repos cacheRepos starsLimit
    rw [enrichPass_fetched, fetched_eq, List.length_map]
    calc (List.filter _ _).length
        ≤ ((sortByPrCountDesc repos).take (starsLimitOrDefault starsLimit)).length :=
          List.length_filter_le _ _
      _ ≤ starsLimitOrDefault starsLimit := by
          rw [List.length_take]
          exact min_le_left _ _
  · intro o repos cacheRepos starsLimit n hn
    rw [enrichPass_fetched, fetched_eq] at hn
    rcases List.mem_map.mp hn with ⟨r, hr, hname⟩
    exact hname ▸ List.mem_map_of_mem _ (List.mem_of_mem_filter hr)
  · rw [enrichPass_fetched, fetched_length_of_empty_cache, List.length_take,
      sortByPrCountDesc, List.length_insertionSort, List.length_replicate]
    decide

/-- Closed witness for C4: with an empty repository list the pass
performs no live call, certainly at most the default budget of 20, and
on a singleton list the one fetched name lies in the hot set. -/
theorem enrichment_budget_bound_witness :
    (enrichPass (fun _ => none) [] [] none).fetched.length ≤ 20 ∧
    "a/x" ∈ ((sortByPrCountDesc [⟨"x", "a/x", "", 0, 1, false, false, "2024"⟩]).take
        (starsLimitOrDefault none)).map (·.fullName) :=
  ⟨enrichment_budget_bound.1 (fun _ => none) [] [] none,
   enrichment_budget_bound.2.1 (fun _ => none)
     [⟨"x", "a/x", "", 0, 1, false, false, "2024"⟩] [] none "a/x" (by decide)⟩

/-- Closed witness for C7: with exclude `a/z` and include `a/y`, the
excluded repository never appears in the output even though the scope
rule keeps it, and the included one is appended from the full unfiltered
set even though the scope rule would drop it. -/
theorem filterRepos_exclude_dominates_include_witness :
    (∀ r ∈ filterRepos
        [⟨"z", "a/z", "", 0, 1, true, false, "2024"⟩]
        ⟨Scope.own, SortBy.stars, false, 0, ["a/y"], ["a/z"], none, none⟩
        [⟨"y", "a/y", "", 0, 1, false, false, "2024"⟩],
      r.fullName ≠ "a/z") ∧
    (∃ r ∈ filterRepos
        [⟨"z", "a/z", "", 0, 1, true, false, "2024"⟩]
        ⟨Scope.own, SortBy.stars, false, 0, ["a/y"], ["a/z"], none, none⟩
        [⟨"y", "a/y", "", 0, 1, false, false, "2024"⟩],
      r.fullName = "a/y") :=
  ⟨(filterRepos_exclude_dominates_include
      [⟨"z", "a/z", "", 0, 1, true, false, "2024"⟩]
      ⟨Scope.own, SortBy.stars, false, 0, ["a/y"], ["a/z"], none, none⟩
      [⟨"y", "a/y", "", 0, 1, false, false, "2024"⟩] "a/z").1 (by decide),
   (filterRepos_exclude_dominates_include
      [⟨"z", "a/z", "", 0, 1, true, false, "2024"⟩]
      ⟨Scope.own, SortBy.stars, false, 0, ["a/y"], ["a/z"], none, none⟩
      [⟨"y", "a/y", "", 0, 1, false, false, "2024"⟩] "a/y").2 (by decide)
      (by decide)
      (Or.inr ⟨⟨"y", "a/y", "", 0, 1, false, false, "2024"⟩, by decide, rfl⟩)⟩

/-- C2 fails on the code: a read for an identity with a memory-cache
entry of age 30 s (fresh window 60 s, no revalidation outstanding)
reports a fresh cache hit (`isFresh = true`, reported staleness false)
and nevertheless schedules a background revalidation, because the
scheduling guard tests the within-24-hours flag, which is also true for
fresh entries. -/
theorem fresh_read_schedules_revalidation :
    (readDecision ⟨[("alice", ⟨some [], 0⟩)], false, none, []⟩
        "alice" 30000).1.isFresh = true ∧
    (readDecision ⟨[("alice", ⟨some [], 0⟩)], false, none, []⟩
        "alice" 30000).1.reportedStale = false ∧
    (readDecision ⟨[("alice", ⟨some [], 0⟩)], false, none, []⟩
        "alice" 30000).1.scheduled = true := by
  decide

/-- C3 fails on the code: with stale entries for `alice` and `bob`
(age 100 s), the read sequence alice, bob, alice schedules three
revalidations, leaving two for `alice` in flight at once (the single
global marker was overwritten by the read for bob); and settling a
revalidation leaves `revalidatePromise`/`revalidateUser` set, since the
source never clears them. -/
theorem second_revalidation_in_flight_and_marker_never_cleared :
    ((readDecision (readDecision (readDecision
        ⟨[("alice", ⟨some [], 0⟩), ("bob", ⟨some [], 0⟩)], false, none, []⟩
        "alice" 100000).2 "bob" 100000).2 "alice" 100000).2.inflight.count
      "alice" = 2) ∧
    ((settleRevalidation (readDecision
        ⟨[("alice", ⟨some [], 0⟩)], false, none, []⟩
        "alice" 100000).2 "alice").revalidateActive = true) ∧
    ((settleRevalidation (readDecision
        ⟨[("alice", ⟨some [], 0⟩)], false, none, []⟩
        "alice" 100000).2 "alice").revalidateUser = some "alice") ∧
    ((settleRevalidation (readDecision
        ⟨[("alice", ⟨some [], 0⟩)], false, none, []⟩
        "alice" 100000).2 "alice").inflight = []) := by
  decide

theorem yearsLoop_append (oracle : Nat → PageOracle) (username : String)
    (ys1 ys2 : List Nat) (fuel : Nat) (m m1 : RepoRecord)
    (h : yearsLoop oracle username ys1 fuel m = .ok m1) :
    yearsLoop oracle username (ys1 ++ ys2) fuel m
      = yearsLoop oracle username ys2 fuel m1 := by
  induction ys1 generalizing m with
  | nil =>
    simp only [yearsLoop] at h
    cases h
    rfl
  | cons y ys ih =>
    rw [yearsLoop] at h
    rw [List.cons_append, yearsLoop]
    cases hy : fetchPRsForYear oracle username y fuel m with
    | error e => rw [hy] at h; exact absurd h (by simp)
    | ok m2 =>
      rw [hy] at h
      exact ih m2 h

/-- C9: a failing page fetch aborts the aggregation.  First, the page
loop returns the fetch error of the page it is standing on; second, the
year loop propagates the error of the first failing year after any
prefix of successful years; third, `fetchContributedRepos` then returns
exactly that error and never a rollup list, so no partial rollup set is
exposed to callers. -/
theorem page_failure_aborts_aggregation :
    (∀ (username : String) (fetch : PageOracle) (fuel page : Nat)
      (m : RepoRecord) (e : String), fetch page = .error e →
      fetchPagesGo username fetch (fuel + 1) page m = .error e) ∧
    (∀ (oracle : Nat → PageOracle) (username : String) (ys1 : List Nat)
      (y : Nat) (ys2 : List Nat) (fuel : Nat) (m m1 : RepoRecord) (e : String),
      yearsLoop oracle username ys1 fuel m = .ok m1 →
      fetchPRsForYear oracle username y fuel m1 = .error e →
      yearsLoop oracle username (ys1 ++ y :: ys2) fuel m = .error e) ∧
    (∀ (oracle : Nat → PageOracle) (username : String) (currentYear fuel : Nat)
      (e : String),
      yearsLoop oracle username (yearsList currentYear) fuel [] = .error e →
      fetchContributedRepos oracle username currentYear fuel = .error e ∧
      ∀ rollups, fetchContributedRepos oracle username currentYear fuel
        ≠ .ok rollups) := by
  refine ⟨?_, ?_, ?_⟩
  · intro username fetch fuel page m e h
    rw [fetchPagesGo, h]
  · intro oracle username ys1 y ys2 fuel m m1 e h1 hy
    rw [yearsLoop_append oracle username ys1 (y :: ys2) fuel m m1 h1,
      yearsLoop, hy]
  · intro oracle username currentYear fuel e h
    rw [fetchContributedRepos, h]
    exact ⟨rfl, by simp⟩

/-- Closed witness for C9: an oracle that fails every page makes the
page loop return its error and makes the whole aggregation for 2024 fail
with it. -/
theorem page_failure_aborts_aggregation_witness :
    fetchPagesGo "alice" (fun _ => .error "GitHub API error: 500") 1 1 []
      = .error "GitHub API error: 500" ∧
    fetchContributedRepos (fun _ _ => .error "GitHub API error: 500")
      "alice" 2024 1 = .error "GitHub API error: 500" := by
  refine ⟨?_, ?_⟩
  · exact page_failure_aborts_aggregation.1 "alice"
      (fun _ => .error "GitHub API error: 500") 0 1 [] "GitHub API error: 500" rfl
  · exact (page_failure_aborts_aggregation.2.2
      (fun _ _ => .error "GitHub API error: 500") "alice" 2024 1
      "GitHub API error: 500" (by rfl)).1

end GHC
